import Mathlib

/-!
# Verification of the blockconvert core

A shallow embedding of the repository's two core source files:

* `src/domain_filter.rs` — the `DomainFilterBuilder` accumulator, the compiled
  `DomainFilter`, and its allow/block/unknown decision algorithm;
* `src/dns_lookup.rs` — the `DNSResultRecord` text serialization, the
  age-bounded cache-loading loop, and the bounded-window resolution loop of
  `lookup_domains`.

Rust `String`s are embedded as `List Char`; `HashSet`s as `List`s with
insert-if-absent / remove-all operations (no claim depends on iteration
order or on deduplication beyond membership); compiled external matchers
(the `regex` crate's `RegexSet`, the `adblock` crate's `Engine`, the
`ipnet` crate's subnet test) as boolean-valued functions supplied as
parameters, since their code is outside this repository.
-/

namespace BlockConvert

/-- `HashSet::insert`: add an element if it is not already present. -/
def slInsert {α : Type} [DecidableEq α] (x : α) (l : List α) : List α :=
  if x ∈ l then l else x :: l

/-- `HashSet::remove`: remove every occurrence of an element. -/
def slRemove {α : Type} [DecidableEq α] (x : α) (l : List α) : List α :=
  l.filter (fun y => y ≠ x)

/-- Rust `str::split` on a single separator character: the list of chunks
between occurrences of `c`.  Always returns at least one chunk; a string
with no separator yields one chunk. -/
def splitOnChar (c : Char) : List Char → List (List Char)
  | [] => [[]]
  | x :: xs =>
    if x = c then [] :: splitOnChar c xs
    else
      match splitOnChar c xs with
      | [] => [[x]]
      | p :: ps => (x :: p) :: ps

/-- Rust `str::trim_end`: drop trailing whitespace. -/
def trimEnd (l : List Char) : List Char :=
  (l.reverse.dropWhile Char.isWhitespace).reverse

/-- Parse each chunk, failing (like the Rust `for`-loop with `?`) as soon as
one chunk fails to parse. -/
def parseAll {α : Type} (f : List Char → Option α) : List (List Char) → Option (List α)
  | [] => some []
  | x :: xs =>
    match f x, parseAll f xs with
    | some a, some rest => some (a :: rest)
    | _, _ => none

/-! ## Domains

The `Domain` type lives in the crate library, outside `src/`; only its use
sites are in `src/`.  Modelled from the spec: a Domain is "a normalized,
lowercase, dot-separated name" whose labels support producing "a lazy,
finite sequence of its ancestor domains (e.g. `www.example.com` →
`example.com` → `com`)".  We carry a domain as its list of labels, each
label a list of characters. -/

/-- A domain is a list of dot-separated labels. -/
abbrev Domain := List (List Char)

/-- Modelled from the spec: the characters a normalized lowercase domain
label may contain (lowercase letters, digits, hyphen). -/
def isDomainChar (c : Char) : Bool :=
  c.isLower || c.isDigit || c = '-'

/-- Modelled from the spec: a valid parsed domain is a nonempty list of
nonempty labels of domain characters. -/
def Domain.valid (d : Domain) : Bool :=
  !d.isEmpty && d.all (fun l => !l.isEmpty && l.all isDomainChar)

/-- The text rendering of a domain: its labels joined with dots
(the `Deref<Target = str>` view a Rust `Domain` exposes). -/
def Domain.render : Domain → List Char
  | [] => []
  | [l] => l
  | l :: ls => l ++ '.' :: Domain.render ls

/-- Modelled from the spec: `Domain::from_str` accepts a normalized
lowercase dot-separated name and yields its labels; anything else fails. -/
def Domain.parse (s : List Char) : Option Domain :=
  let labels := splitOnChar '.' s
  if Domain.valid labels then some labels else none

/-- Modelled from the spec: `Domain::iter_parent_domains` yields the strict
ancestor domains, e.g. `www.example.com` → `example.com` → `com` (the domain
itself is not yielded; `main.rs` chains `once(domain)` in front of it when
the full list is wanted). -/
def iter_parent_domains : Domain → List Domain
  | [] => []
  | _ :: rest =>
    match rest with
    | [] => []
    | _ :: _ => rest :: iter_parent_domains rest

/-! ## IP addresses

`std::net::IpAddr` is external to the repository; we model its IPv4 case
(dotted-decimal `Display` and `FromStr`, the forms exercised throughout the
repository), keeping the std contract: rendering never produces leading
zeros, parsing rejects empty/oversized/leading-zero octets and values
above 255. -/

structure IpAddr where
  a : Nat
  b : Nat
  c : Nat
  d : Nat
deriving DecidableEq

def IpAddr.valid (ip : IpAddr) : Bool :=
  ip.a < 256 && ip.b < 256 && ip.c < 256 && ip.d < 256

def digitChar (n : Nat) : Char := Char.ofNat (48 + n)

/-- Decimal rendering of one octet (a value below 256, so at most three
digits, never with a leading zero). -/
def renderOctet (n : Nat) : List Char :=
  if n < 10 then [digitChar n]
  else if n < 100 then [digitChar (n / 10), digitChar (n % 10)]
  else [digitChar (n / 100), digitChar (n / 10 % 10), digitChar (n % 10)]

def charVal (c : Char) : Nat := c.toNat - 48

/-- Parse one decimal octet, rejecting (as Rust's `Ipv4Addr: FromStr` does)
empty chunks, non-digits, leading zeros, more than three digits, and
values above 255. -/
def parseOctet (l : List Char) : Option Nat :=
  if !l.isEmpty && l.all Char.isDigit && (l.length = 1 || l.headD ' ' ≠ '0')
      && l.length ≤ 3 then
    let v := l.foldl (fun a c => 10 * a + charVal c) 0
    if v < 256 then some v else none
  else none

/-- `IpAddr::to_string`: dotted-decimal. -/
def IpAddr.render (ip : IpAddr) : List Char :=
  renderOctet ip.a ++ '.' :: (renderOctet ip.b ++ '.' :: (renderOctet ip.c ++ '.' :: renderOctet ip.d))

/-- `IpAddr::from_str` (IPv4 case): exactly four dot-separated octets. -/
def IpAddr.parse (s : List Char) : Option IpAddr :=
  match splitOnChar '.' s with
  | [pa, pb, pc, pd] =>
    match parseOctet pa, parseOctet pb, parseOctet pc, parseOctet pd with
    | some a, some b, some c, some d => some ⟨a, b, c, d⟩
    | _, _, _, _ => none
  | _ => none

/-! ## DNS result records (`src/dns_lookup.rs` lines 14–64) -/

structure DNSResultRecord where
  domain : Domain
  cnames : List Domain
  ips : List IpAddr
deriving DecidableEq

/-- A record whose domain and cnames are valid domains and whose ips are
valid IPv4 addresses — exactly what the `Domain` / `IpAddr` types guarantee
by construction in the Rust code. -/
def DNSResultRecord.valid (r : DNSResultRecord) : Bool :=
  Domain.valid r.domain && r.cnames.all Domain.valid && r.ips.all IpAddr.valid

/-- `DNSResultRecord::to_string` (dns_lookup.rs 22–36): domain, `';'`, each
cname followed by `','`, `';'`, each ip followed by `','`. -/
def DNSResultRecord.to_string (r : DNSResultRecord) : List Char :=
  Domain.render r.domain ++ [';']
    ++ (r.cnames.flatMap (fun cname => Domain.render cname ++ [',']))
    ++ [';']
    ++ (r.ips.flatMap (fun ip => IpAddr.render ip ++ [',']))

/-- `DNSResultRecord::from_str` (dns_lookup.rs 39–64): split on `';'`,
needing at least three fields (extra fields ignored); parse the first as
the domain; split the second on `','`, dropping empty chunks, and parse
each as a cname; trim trailing whitespace from the third, split on `','`,
drop empty chunks, parse each as an ip.  Any sub-parse failure fails the
whole record. -/
def DNSResultRecord.from_str (s : List Char) : Option DNSResultRecord :=
  match splitOnChar ';' s with
  | domainPart :: cnamePart :: ipPart :: _ =>
    match Domain.parse domainPart with
    | none => none
    | some domain =>
      match parseAll Domain.parse ((splitOnChar ',' cnamePart).filter (fun c => !c.isEmpty)) with
      | none => none
      | some cnames =>
        match parseAll IpAddr.parse ((splitOnChar ',' (trimEnd ipPart)).filter (fun c => !c.isEmpty)) with
        | none => none
        | some ips => some ⟨domain, cnames, ips⟩
  | _ => none

/-! ## The domain filter (`src/domain_filter.rs`)

Embedding choices: `HashSet`s become `List`s with `slInsert` / `slRemove` /
membership; `ipnet::IpNet` is modelled as an IPv4 CIDR prefix with the
crate's containment semantics; the `regex` and `adblock` crates are
external, so their behavior enters as boolean-valued functions: `regexOk`
models `Regex::new(re).is_ok()`, `regexSetMatch` models a compiled
`RegexSet`'s `is_match`, and `adblockMatched` / `adblockException` model
`Engine::from_rules(rules).check_network_urls(url, url, "")`'s `matched`
flag and `exception.is_some()` flag. -/

/-- Modelled from the ipnet crate contract: an IPv4 CIDR subnet. -/
structure IpNet where
  addr : IpAddr
  prefixLen : Nat
deriving DecidableEq

def IpAddr.toNat (ip : IpAddr) : Nat :=
  ip.a * 16777216 + ip.b * 65536 + ip.c * 256 + ip.d

/-- Modelled from the ipnet crate contract: membership of an address in a
CIDR subnet is agreement on the first `prefixLen` bits. -/
def IpNet.contains (net : IpNet) (ip : IpAddr) : Bool :=
  ip.toNat / 2 ^ (32 - min 32 net.prefixLen)
    = net.addr.toNat / 2 ^ (32 - min 32 net.prefixLen)

/-- The behavior of the external regex and ad-block crates, supplied as
parameters to the embedding. -/
structure ExternalEngines where
  regexOk : List Char → Bool
  regexSetMatch : List (List Char) → List Char → Bool
  adblockMatched : List (List Char) → List Char → Bool
  adblockException : List (List Char) → List Char → Bool

/-- `DomainFilterBuilder` (domain_filter.rs 5–18). -/
structure DomainFilterBuilder where
  allow_domains : List Domain
  disallow_domains : List Domain
  allow_subdomains : List Domain
  disallow_subdomains : List Domain
  allow_ips : List IpAddr
  disallow_ips : List IpAddr
  allow_ip_net : List IpNet
  disallow_ip_net : List IpNet
  adblock : List (List Char)
  allow_regex : List (List Char)
  disallow_regex : List (List Char)
deriving DecidableEq

/-- `DomainFilterBuilder::new` (domain_filter.rs 21–23): all sets empty. -/
def DomainFilterBuilder.new : DomainFilterBuilder :=
  ⟨[], [], [], [], [], [], [], [], [], [], []⟩

/-- `is_subdomain_of_list` (domain_filter.rs 97–101). -/
def is_subdomain_of_list (domain : Domain) (filter_list : List Domain) : Bool :=
  (iter_parent_domains domain).any (fun part => filter_list.contains part)

/-- `add_allow_domain` (domain_filter.rs 25–28). -/
def DomainFilterBuilder.add_allow_domain (self : DomainFilterBuilder)
    (domain : Domain) : DomainFilterBuilder :=
  { self with
    disallow_domains := slRemove domain self.disallow_domains,
    allow_domains := slInsert domain self.allow_domains }

/-- `add_disallow_domain` (domain_filter.rs 29–35). -/
def DomainFilterBuilder.add_disallow_domain (self : DomainFilterBuilder)
    (domain : Domain) : DomainFilterBuilder :=
  if !self.allow_domains.contains domain
      && !is_subdomain_of_list domain self.allow_subdomains then
    { self with disallow_domains := slInsert domain self.disallow_domains }
  else self

/-- `add_allow_subdomain` (domain_filter.rs 36–39). -/
def DomainFilterBuilder.add_allow_subdomain (self : DomainFilterBuilder)
    (domain : Domain) : DomainFilterBuilder :=
  { self with
    disallow_subdomains := slRemove domain self.disallow_subdomains,
    allow_subdomains := slInsert domain self.allow_subdomains }

/-- `add_disallow_subdomain` (domain_filter.rs 40–44). -/
def DomainFilterBuilder.add_disallow_subdomain (self : DomainFilterBuilder)
    (domain : Domain) : DomainFilterBuilder :=
  if !self.allow_subdomains.contains domain then
    { self with disallow_subdomains := slInsert domain self.disallow_subdomains }
  else self

/-- `add_allow_ip_addr` (domain_filter.rs 46–49). -/
def DomainFilterBuilder.add_allow_ip_addr (self : DomainFilterBuilder)
    (ip : IpAddr) : DomainFilterBuilder :=
  { self with
    disallow_ips := slRemove ip self.disallow_ips,
    allow_ips := slInsert ip self.allow_ips }

/-- `add_disallow_ip_addr` (domain_filter.rs 50–52). -/
def DomainFilterBuilder.add_disallow_ip_addr (self : DomainFilterBuilder)
    (ip : IpAddr) : DomainFilterBuilder :=
  { self with disallow_ips := slInsert ip self.disallow_ips }

/-- `add_allow_ip_subnet` (domain_filter.rs 54–57). -/
def DomainFilterBuilder.add_allow_ip_subnet (self : DomainFilterBuilder)
    (net : IpNet) : DomainFilterBuilder :=
  { self with
    disallow_ip_net := slRemove net self.disallow_ip_net,
    allow_ip_net := slInsert net self.allow_ip_net }

/-- `add_disallow_ip_subnet` (domain_filter.rs 59–61). -/
def DomainFilterBuilder.add_disallow_ip_subnet (self : DomainFilterBuilder)
    (ip : IpNet) : DomainFilterBuilder :=
  { self with disallow_ip_net := slInsert ip self.disallow_ip_net }

/-- `add_adblock_rule` (domain_filter.rs 63–65). -/
def DomainFilterBuilder.add_adblock_rule (self : DomainFilterBuilder)
    (rule : List Char) : DomainFilterBuilder :=
  { self with adblock := slInsert rule self.adblock }

/-- `add_allow_regex` (domain_filter.rs 67–71): inserted only when the
pattern compiles. -/
def DomainFilterBuilder.add_allow_regex (regexOk : List Char → Bool)
    (self : DomainFilterBuilder) (re : List Char) : DomainFilterBuilder :=
  if regexOk re then { self with allow_regex := slInsert re self.allow_regex }
  else self

/-- `add_disallow_regex` (domain_filter.rs 72–76). -/
def DomainFilterBuilder.add_disallow_regex (regexOk : List Char → Bool)
    (self : DomainFilterBuilder) (re : List Char) : DomainFilterBuilder :=
  if regexOk re then { self with disallow_regex := slInsert re self.disallow_regex }
  else self

/-- One public mutating operation on the builder. -/
inductive BuilderOp where
  | allowDomain (d : Domain)
  | disallowDomain (d : Domain)
  | allowSubdomain (d : Domain)
  | disallowSubdomain (d : Domain)
  | allowIpAddr (ip : IpAddr)
  | disallowIpAddr (ip : IpAddr)
  | allowIpSubnet (net : IpNet)
  | disallowIpSubnet (net : IpNet)
  | adblockRule (rule : List Char)
  | allowRegex (re : List Char)
  | disallowRegex (re : List Char)

def applyOp (regexOk : List Char → Bool) (b : DomainFilterBuilder) :
    BuilderOp → DomainFilterBuilder
  | .allowDomain d => b.add_allow_domain d
  | .disallowDomain d => b.add_disallow_domain d
  | .allowSubdomain d => b.add_allow_subdomain d
  | .disallowSubdomain d => b.add_disallow_subdomain d
  | .allowIpAddr ip => b.add_allow_ip_addr ip
  | .disallowIpAddr ip => b.add_disallow_ip_addr ip
  | .allowIpSubnet net => b.add_allow_ip_subnet net
  | .disallowIpSubnet net => b.add_disallow_ip_subnet net
  | .adblockRule rule => b.add_adblock_rule rule
  | .allowRegex re => b.add_allow_regex regexOk re
  | .disallowRegex re => b.add_disallow_regex regexOk re

/-- A builder state reached by a sequence of public operations. -/
def applyOps (regexOk : List Char → Bool) (b : DomainFilterBuilder)
    (ops : List BuilderOp) : DomainFilterBuilder :=
  ops.foldl (applyOp regexOk) b

/-- `DomainFilter` (domain_filter.rs 104–116): the immutable compiled
snapshot.  The compiled `RegexSet`s and `adblock::Engine` are carried as
their match functions. -/
structure DomainFilter where
  allow_domains : List Domain
  disallow_domains : List Domain
  allow_subdomains : List Domain
  disallow_subdomains : List Domain
  allow_ips : List IpAddr
  disallow_ips : List IpAddr
  allow_ip_net : List IpNet
  disallow_ip_net : List IpNet
  adblock_matched : List Char → Bool
  adblock_exception : List Char → Bool
  allow_regex : List Char → Bool
  disallow_regex : List Char → Bool

/-- Modelled from the regex crate contract: `RegexSet::new` succeeds iff
every pattern in the set compiles; on failure the Rust code's `.unwrap()`
panics, which we embed as `none`. -/
def regexSetNew (regexOk : List Char → Bool) (pats : List (List Char)) :
    Option (List (List Char)) :=
  if pats.all regexOk then some pats else none

/-- `to_domain_filter` (domain_filter.rs 78–94).  `none` models a panic of
one of the two `RegexSet::new(...).unwrap()` calls. -/
def DomainFilterBuilder.to_domain_filter (ext : ExternalEngines)
    (self : DomainFilterBuilder) : Option DomainFilter :=
  match regexSetNew ext.regexOk self.allow_regex,
      regexSetNew ext.regexOk self.disallow_regex with
  | some ar, some dr =>
    some
      { allow_domains := self.allow_domains
        disallow_domains := self.disallow_domains
        allow_subdomains := self.allow_subdomains
        disallow_subdomains := self.disallow_subdomains
        allow_ips := self.allow_ips
        disallow_ips := self.disallow_ips
        allow_ip_net := self.allow_ip_net
        disallow_ip_net := self.disallow_ip_net
        adblock_matched := ext.adblockMatched self.adblock
        adblock_exception := ext.adblockException self.adblock
        allow_regex := ext.regexSetMatch ar
        disallow_regex := ext.regexSetMatch dr }
  | _, _ => none

/-- The synthetic URL `format!("https://{}", domain)` (domain_filter.rs 146). -/
def domainUrl (domain : Domain) : List Char :=
  "https://".toList ++ Domain.render domain

/-- `DomainFilter::domain_is_allowed` (domain_filter.rs 139–160). -/
def DomainFilter.domain_is_allowed (self : DomainFilter) (domain : Domain) :
    Option Bool :=
  if self.allow_domains.contains domain
      || is_subdomain_of_list domain self.allow_subdomains
      || self.allow_regex (Domain.render domain) then
    some true
  else
    let url := domainUrl domain
    if self.adblock_exception url then
      -- Adblock exception rule
      some true
    else if self.adblock_matched url
        || self.disallow_domains.contains domain
        || is_subdomain_of_list domain self.disallow_subdomains
        || self.disallow_regex (Domain.render domain) then
      some false
    else
      none

/-- `DomainFilter::ip_is_allowed` (domain_filter.rs 162–172). -/
def DomainFilter.ip_is_allowed (self : DomainFilter) (ip : IpAddr) :
    Option Bool :=
  if self.allow_ips.contains ip
      || self.allow_ip_net.any (fun net => net.contains ip) then
    some true
  else if self.disallow_ips.contains ip
      || self.disallow_ip_net.any (fun net => net.contains ip) then
    some false
  else
    none

/-- `DomainFilter::allowed` (domain_filter.rs 119–137). -/
def DomainFilter.allowed (self : DomainFilter) (domain : Domain)
    (cnames : List Domain) (ips : List IpAddr) : Option Bool :=
  match self.domain_is_allowed domain with
  | some result => some result
  | none =>
    if cnames.any (fun cname => self.domain_is_allowed cname == some false) then
      some false
    else if ips.any (fun ip => self.ip_is_allowed ip == some false) then
      some false
    else
      none

/-! ## The resolver (`src/dns_lookup.rs` lines 80–180)

`lookup_domains` has two phases.  The cache phase iterates over the files
of the `dns_db` directory; a file is embedded as its age in seconds
(`duration_since.as_secs()`) together with its list of lines.  The network
phase drives a `FuturesUnordered` pool: it seeds up to 500 lookups, then,
whenever one completes, records the result and pulls one more pending
domain into the pool.  The network is embedded as a function
`outcome : Domain → Option DNSResultRecord` (`none` models a failed
`get_dns_results`), and the unordered completion is embedded by a list of
`picks`, each pick choosing (modulo the pool size) which in-flight lookup
completes next.  Progress printing, the round-robin endpoint index and the
cache-file writer affect neither the pending set, the pool nor the
callback sequence and are not carried; the callback invocations are
carried as the accumulated list of records passed to `f`, in call order. -/

def MAX_AGE : Nat := 7 * 86400

structure CacheFile where
  age : Nat
  lines : List (List Char)

/-- The body of the `while let Ok(len) = file.read_line(..)` loop
(dns_lookup.rs 101–110): a line that parses has its domain removed from
the pending set and is passed to the callback; a line that does not parse
is skipped. -/
def readCacheLine (st : List Domain × List DNSResultRecord) (line : List Char) :
    List Domain × List DNSResultRecord :=
  match DNSResultRecord.from_str line with
  | some record => (slRemove record.domain st.1, st.2 ++ [record])
  | none => st

/-- The per-file body of the cache loop (dns_lookup.rs 94–117): a file
younger than `MAX_AGE` has each of its lines processed; any other file is
skipped entirely (only reported as expired). -/
def readCacheFile (st : List Domain × List DNSResultRecord) (file : CacheFile) :
    List Domain × List DNSResultRecord :=
  if file.age < MAX_AGE then file.lines.foldl readCacheLine st else st

/-- The whole cache phase (dns_lookup.rs 91–118), returning the reduced
pending set and the records passed to the callback. -/
def readCache (files : List CacheFile) (domains : List Domain) :
    List Domain × List DNSResultRecord :=
  files.foldl readCacheFile (domains, [])

/-- The in-flight window size: `(0..500)` at dns_lookup.rs 141. -/
def WINDOW : Nat := 500

/-- The state of the resolution loop: the domains not yet handed to the
pool (`domain_iter`), the in-flight pool (`tasks`), the records passed to
the callback so far, and `error_count`. -/
structure ResolverState where
  queued : List Domain
  inflight : List Domain
  calls : List DNSResultRecord
  error_count : Nat
deriving DecidableEq

/-- One iteration of `while let Some(record) = tasks.next().await`
(dns_lookup.rs 151–177): the pick chooses which in-flight lookup completes;
on success the record is passed to the callback, on failure the error
count grows; either way one more queued domain (if any) enters the pool. -/
def loopStep (outcome : Domain → Option DNSResultRecord)
    (st : ResolverState) (pick : Nat) : ResolverState :=
  match st.inflight with
  | [] => st
  | d0 :: _ =>
    let i := pick % st.inflight.length
    let d := st.inflight.getD i d0
    let inflight2 := st.inflight.eraseIdx i
    match outcome d, st.queued with
    | some record, [] =>
      ⟨[], inflight2, st.calls ++ [record], st.error_count⟩
    | some record, q :: qs =>
      ⟨qs, inflight2 ++ [q], st.calls ++ [record], st.error_count⟩
    | none, [] =>
      ⟨[], inflight2, st.calls, st.error_count + 1⟩
    | none, q :: qs =>
      ⟨qs, inflight2 ++ [q], st.calls, st.error_count + 1⟩

/-- The whole resolution loop, one `loopStep` per pick; the loop has
terminated when the pool is empty (further picks change nothing). -/
def runLoop (outcome : Domain → Option DNSResultRecord)
    (st : ResolverState) (picks : List Nat) : ResolverState :=
  picks.foldl (loopStep outcome) st

/-- The seeding `for (i, domain) in (0..500).zip(&mut domain_iter)`
(dns_lookup.rs 141–147): the first `WINDOW` pending domains enter the
pool, the rest stay queued. -/
def initState (pending : List Domain) : ResolverState :=
  ⟨pending.drop WINDOW, pending.take WINDOW, [], 0⟩

/-- `lookup_domains` (dns_lookup.rs 80–180): the cache phase, the
empty-pending early return (dns_lookup.rs 121–123), then the seeded
resolution loop.  The result is the full sequence of callback
invocations. -/
def lookup_domains (outcome : Domain → Option DNSResultRecord)
    (files : List CacheFile) (domains : List Domain) (picks : List Nat) :
    List DNSResultRecord :=
  let loaded := readCache files domains
  if loaded.1.isEmpty then loaded.2
  else loaded.2 ++ (runLoop outcome (initState loaded.1) picks).calls

/-- The per-label part of `Domain.valid`, without the overall nonemptiness. -/
def labelsOk (d : Domain) : Bool :=
  d.all (fun l => !l.isEmpty && l.all isDomainChar)

/-- The record list a single cache file contributes to the callback. -/
def fileRecords (file : CacheFile) : List DNSResultRecord :=
  if file.age < MAX_AGE then file.lines.filterMap DNSResultRecord.from_str else []

/-- A compiled filter with no rules at all: every set empty, and the
compiled matchers of empty rule sets match nothing (an empty `RegexSet`
and an `Engine` built from no rules never match). -/
def emptyFilter : DomainFilter :=
  ⟨[], [], [], [], [], [], [], [],
    fun _ => false, fun _ => false, fun _ => false, fun _ => false⟩

set_option maxRecDepth 100000

/-! ## Lemmas about splitting and rendering -/

theorem render_cons_cons (l l2 : List Char) (ls2 : List (List Char)) :
    Domain.render (l :: l2 :: ls2) = l ++ '.' :: Domain.render (l2 :: ls2) := rfl

theorem splitOnChar_ne_nil (c : Char) (l : List Char) : splitOnChar c l ≠ [] := by
  induction l with
  | nil => simp [splitOnChar]
  | cons x xs ih =>
    rw [splitOnChar]
    split
    · simp
    · split <;> simp

theorem splitOnChar_of_not_mem {c : Char} {l : List Char} (h : c ∉ l) :
    splitOnChar c l = [l] := by
  induction l with
  | nil => rfl
  | cons x xs ih =>
    simp only [List.mem_cons, not_or] at h
    rw [splitOnChar, if_neg (fun e => h.1 e.symm), ih h.2]

theorem splitOnChar_append_cons {c : Char} {a : List Char} (rest : List Char)
    (h : c ∉ a) : splitOnChar c (a ++ c :: rest) = a :: splitOnChar c rest := by
  induction a with
  | nil => simp [splitOnChar]
  | cons x xs ih =>
    simp only [List.mem_cons, not_or] at h
    rw [List.cons_append, splitOnChar, if_neg (fun e => h.1 e.symm), ih h.2]

theorem valid_iff {d : Domain} :
    Domain.valid d = true ↔ d ≠ [] ∧ labelsOk d = true := by
  cases d <;> simp [Domain.valid, labelsOk]

theorem label_not_dot {l : List Char} (h : l.all isDomainChar = true) : '.' ∉ l := by
  intro hm
  exact absurd (List.all_eq_true.mp h _ hm) (by decide)

theorem splitOnChar_dot_render {d : Domain} (hne : d ≠ [])
    (hok : labelsOk d = true) : splitOnChar '.' (Domain.render d) = d := by
  induction d with
  | nil => exact absurd rfl hne
  | cons l ls ih =>
    simp only [labelsOk, List.all_cons, Bool.and_eq_true] at hok
    cases ls with
    | nil =>
      exact splitOnChar_of_not_mem (label_not_dot hok.1.2)
    | cons l2 ls2 =>
      rw [render_cons_cons, splitOnChar_append_cons _ (label_not_dot hok.1.2),
        ih (by simp) hok.2]

theorem domainParse_render {d : Domain} (hv : Domain.valid d = true) :
    Domain.parse (Domain.render d) = some d := by
  obtain ⟨hne, hok⟩ := valid_iff.mp hv
  simp only [Domain.parse, splitOnChar_dot_render hne hok, if_pos hv]

theorem domainRender_ne_nil {d : Domain} (hv : Domain.valid d = true) :
    Domain.render d ≠ [] := by
  obtain ⟨hne, hok⟩ := valid_iff.mp hv
  cases d with
  | nil => exact absurd rfl hne
  | cons l ls =>
    simp only [labelsOk, List.all_cons, Bool.and_eq_true] at hok
    have hl : l ≠ [] := by
      cases l
      · exact absurd hok.1.1 (by decide)
      · simp
    cases ls with
    | nil => exact hl
    | cons l2 ls2 => simp [Domain.render, hl]

theorem mem_render_of_valid {d : Domain} (hv : Domain.valid d = true) :
    ∀ ch ∈ Domain.render d, isDomainChar ch = true ∨ ch = '.' := by
  obtain ⟨hne, hok⟩ := valid_iff.mp hv
  clear hv hne
  induction d with
  | nil => simp [Domain.render]
  | cons l ls ih =>
    simp only [labelsOk, List.all_cons, Bool.and_eq_true] at hok
    cases ls with
    | nil =>
      intro ch hch
      exact Or.inl (List.all_eq_true.mp hok.1.2 _ hch)
    | cons l2 ls2 =>
      intro ch hch
      rw [render_cons_cons, List.mem_append] at hch
      rcases hch with hch | hch
      · exact Or.inl (List.all_eq_true.mp hok.1.2 _ hch)
      · rcases List.mem_cons.mp hch with rfl | hch
        · exact Or.inr rfl
        · exact ih hok.2 ch hch

/-- A character of a rendered domain is never a field delimiter and never
whitespace. -/
theorem domainChar_not_delim {ch : Char} (h : isDomainChar ch = true ∨ ch = '.') :
    ch ≠ ';' ∧ ch ≠ ',' ∧ ch.isWhitespace = false := by
  refine ⟨?_, ?_, ?_⟩
  · rintro rfl
    rcases h with h | h
    · exact absurd h (by decide)
    · exact absurd h (by decide)
  · rintro rfl
    rcases h with h | h
    · exact absurd h (by decide)
    · exact absurd h (by decide)
  · rcases Bool.eq_false_or_eq_true ch.isWhitespace with hw | hw
    case inr => exact hw
    case inl =>
      have hc : ch = ' ' ∨ ch = '\t' ∨ ch = '\r' ∨ ch = '\n' := by
        simp [Char.isWhitespace] at hw
        tauto
      rcases hc with rfl | rfl | rfl | rfl <;>
        rcases h with h | h <;> exact absurd h (by decide)

theorem octet_roundtrip : ∀ n, n < 256 → parseOctet (renderOctet n) = some n := by
  decide

theorem octet_digits : ∀ n, n < 256 → ∀ ch ∈ renderOctet n, ch.isDigit = true := by
  decide

theorem octet_ne_nil : ∀ n, n < 256 → renderOctet n ≠ [] := by
  decide

theorem octet_not_dot {n : Nat} (h : n < 256) : '.' ∉ renderOctet n := by
  intro hm
  exact absurd (octet_digits n h _ hm) (by decide)

theorem ipValid_iff {ip : IpAddr} :
    IpAddr.valid ip = true ↔ ip.a < 256 ∧ ip.b < 256 ∧ ip.c < 256 ∧ ip.d < 256 := by
  simp [IpAddr.valid, and_assoc]

theorem ipParse_render {ip : IpAddr} (hv : ip.valid = true) :
    IpAddr.parse (IpAddr.render ip) = some ip := by
  obtain ⟨ha, hb, hc, hd⟩ := ipValid_iff.mp hv
  rw [IpAddr.render, IpAddr.parse,
    splitOnChar_append_cons _ (octet_not_dot ha),
    splitOnChar_append_cons _ (octet_not_dot hb),
    splitOnChar_append_cons _ (octet_not_dot hc),
    splitOnChar_of_not_mem (octet_not_dot hd)]
  simp [octet_roundtrip _ ha, octet_roundtrip _ hb, octet_roundtrip _ hc,
    octet_roundtrip _ hd]

theorem mem_ip_render_of_valid {ip : IpAddr} (hv : ip.valid = true) :
    ∀ ch ∈ IpAddr.render ip, ch.isDigit = true ∨ ch = '.' := by
  obtain ⟨ha, hb, hc, hd⟩ := ipValid_iff.mp hv
  intro ch hch
  simp only [IpAddr.render, List.mem_append, List.mem_cons] at hch
  rcases hch with h | rfl | h | rfl | h | rfl | h
  · exact Or.inl (octet_digits _ ha _ h)
  · exact Or.inr rfl
  · exact Or.inl (octet_digits _ hb _ h)
  · exact Or.inr rfl
  · exact Or.inl (octet_digits _ hc _ h)
  · exact Or.inr rfl
  · exact Or.inl (octet_digits _ hd _ h)

theorem ipChar_not_delim {ch : Char} (h : ch.isDigit = true ∨ ch = '.') :
    ch ≠ ';' ∧ ch ≠ ',' ∧ ch.isWhitespace = false := by
  refine ⟨?_, ?_, ?_⟩
  · rintro rfl
    rcases h with h | h
    · exact absurd h (by decide)
    · exact absurd h (by decide)
  · rintro rfl
    rcases h with h | h
    · exact absurd h (by decide)
    · exact absurd h (by decide)
  · rcases Bool.eq_false_or_eq_true ch.isWhitespace with hw | hw
    case inr => exact hw
    case inl =>
      have hc : ch = ' ' ∨ ch = '\t' ∨ ch = '\r' ∨ ch = '\n' := by
        simp [Char.isWhitespace] at hw
        tauto
      rcases hc with rfl | rfl | rfl | rfl <;>
        rcases h with h | h <;> exact absurd h (by decide)

theorem ipRender_ne_nil {ip : IpAddr} (hv : ip.valid = true) :
    IpAddr.render ip ≠ [] := by
  obtain ⟨ha, _, _, _⟩ := ipValid_iff.mp hv
  simp [IpAddr.render, octet_ne_nil _ ha]

/-- Splitting a comma-terminated concatenation of comma-free chunks yields
the chunks followed by one empty trailing chunk. -/
theorem splitOnChar_sections {c : Char} {α : Type} (f : α → List Char) :
    ∀ {xs : List α}, (∀ x ∈ xs, c ∉ f x) →
    splitOnChar c (xs.flatMap (fun x => f x ++ [c])) = xs.map f ++ [[]] := by
  intro xs
  induction xs with
  | nil => intro _; rfl
  | cons x xs ih =>
    intro h
    have hx : c ∉ f x := h x (List.mem_cons_self x xs)
    have : (x :: xs).flatMap (fun x => f x ++ [c])
        = f x ++ c :: xs.flatMap (fun x => f x ++ [c]) := by
      simp [List.flatMap_cons]
    rw [this, splitOnChar_append_cons _ hx,
      ih (fun y hy => h y (List.mem_cons_of_mem _ hy))]
    rfl

theorem filter_sections {ps : List (List Char)} (h : ∀ p ∈ ps, p ≠ []) :
    (ps ++ [[]]).filter (fun l => !l.isEmpty) = ps := by
  induction ps with
  | nil => rfl
  | cons p ps ih =>
    have hp : (!p.isEmpty) = true := by
      cases p
      · exact absurd rfl (h _ (List.mem_cons_self _ _))
      · rfl
    simp only [List.cons_append, List.filter_cons, hp, if_true]
    rw [ih (fun q hq => h q (List.mem_cons_of_mem _ hq))]

theorem parseAll_render_domains :
    ∀ {cs : List Domain}, (∀ x ∈ cs, Domain.valid x = true) →
    parseAll Domain.parse (cs.map Domain.render) = some cs := by
  intro cs
  induction cs with
  | nil => intro _; rfl
  | cons c cs ih =>
    intro h
    rw [List.map_cons, parseAll, domainParse_render (h c (List.mem_cons_self _ _)),
      ih (fun y hy => h y (List.mem_cons_of_mem _ hy))]

theorem parseAll_render_ips :
    ∀ {ips : List IpAddr}, (∀ x ∈ ips, IpAddr.valid x = true) →
    parseAll IpAddr.parse (ips.map IpAddr.render) = some ips := by
  intro ips
  induction ips with
  | nil => intro _; rfl
  | cons ip ips ih =>
    intro h
    rw [List.map_cons, parseAll, ipParse_render (h ip (List.mem_cons_self _ _)),
      ih (fun y hy => h y (List.mem_cons_of_mem _ hy))]

theorem trimEnd_eq_self {l : List Char} (h : ∀ ch ∈ l, ch.isWhitespace = false) :
    trimEnd l = l := by
  unfold trimEnd
  have hd : l.reverse.dropWhile Char.isWhitespace = l.reverse := by
    cases hr : l.reverse with
    | nil => rfl
    | cons x xs =>
      have hx : x.isWhitespace = false := by
        refine h x ?_
        rw [← List.mem_reverse, hr]
        exact List.mem_cons_self _ _
      rw [List.dropWhile_cons, hx]
      simp
  rw [hd, List.reverse_reverse]

theorem semi_not_mem_render {d : Domain} (hv : Domain.valid d = true) :
    ';' ∉ Domain.render d :=
  fun hm => (domainChar_not_delim (mem_render_of_valid hv _ hm)).1 rfl

theorem comma_not_mem_render {d : Domain} (hv : Domain.valid d = true) :
    ',' ∉ Domain.render d :=
  fun hm => (domainChar_not_delim (mem_render_of_valid hv _ hm)).2.1 rfl

theorem comma_not_mem_ip_render {ip : IpAddr} (hv : IpAddr.valid ip = true) :
    ',' ∉ IpAddr.render ip :=
  fun hm => (ipChar_not_delim (mem_ip_render_of_valid hv _ hm)).2.1 rfl

theorem semi_not_mem_cname_section {cs : List Domain}
    (h : ∀ c ∈ cs, Domain.valid c = true) :
    ';' ∉ cs.flatMap (fun c => Domain.render c ++ [',']) := by
  intro hm
  simp only [List.mem_flatMap, List.mem_append] at hm
  obtain ⟨c, hc, hm⟩ := hm
  rcases hm with hm | hm
  · exact (domainChar_not_delim (mem_render_of_valid (h c hc) _ hm)).1 rfl
  · exact absurd hm (by decide)

theorem semi_not_mem_ip_section {ips : List IpAddr}
    (h : ∀ ip ∈ ips, IpAddr.valid ip = true) :
    ';' ∉ ips.flatMap (fun ip => IpAddr.render ip ++ [',']) := by
  intro hm
  simp only [List.mem_flatMap, List.mem_append] at hm
  obtain ⟨ip, hip, hm⟩ := hm
  rcases hm with hm | hm
  · exact (ipChar_not_delim (mem_ip_render_of_valid (h ip hip) _ hm)).1 rfl
  · exact absurd hm (by decide)

theorem ws_not_mem_ip_section {ips : List IpAddr}
    (h : ∀ ip ∈ ips, IpAddr.valid ip = true) :
    ∀ ch ∈ ips.flatMap (fun ip => IpAddr.render ip ++ [',']),
      ch.isWhitespace = false := by
  intro ch hm
  simp only [List.mem_flatMap, List.mem_append] at hm
  obtain ⟨ip, hip, hm⟩ := hm
  rcases hm with hm | hm
  · exact (ipChar_not_delim (mem_ip_render_of_valid (h ip hip) _ hm)).2.2
  · have : ch = ',' := by simpa using hm
    subst this
    decide

/-- C4: for every DNS result record — including records whose cname list or
ip list (or both) is empty — parsing the serialized form succeeds and gives
back the same record: the domain, the cname sequence in order, and the ip
sequence in order are all preserved. -/
theorem c4_record_roundtrip {r : DNSResultRecord} (hv : r.valid = true) :
    DNSResultRecord.from_str r.to_string = some r := by
  obtain ⟨dom, cnames, ips⟩ := r
  simp only [DNSResultRecord.valid, Bool.and_eq_true, List.all_eq_true] at hv
  obtain ⟨⟨hdom, hcn⟩, hip⟩ := hv
  have hshape : DNSResultRecord.to_string ⟨dom, cnames, ips⟩
      = Domain.render dom
        ++ ';' :: ((cnames.flatMap (fun c => Domain.render c ++ [',']))
        ++ ';' :: (ips.flatMap (fun ip => IpAddr.render ip ++ [',']))) := by
    simp [DNSResultRecord.to_string]
  have hsplit : splitOnChar ';' (DNSResultRecord.to_string ⟨dom, cnames, ips⟩)
      = [Domain.render dom,
         cnames.flatMap (fun c => Domain.render c ++ [',']),
         ips.flatMap (fun ip => IpAddr.render ip ++ [','])] := by
    rw [hshape, splitOnChar_append_cons _ (semi_not_mem_render hdom),
      splitOnChar_append_cons _ (semi_not_mem_cname_section hcn),
      splitOnChar_of_not_mem (semi_not_mem_ip_section hip)]
  have hcnames : parseAll Domain.parse
      ((splitOnChar ',' (cnames.flatMap (fun c => Domain.render c ++ [',']))).filter
        (fun c => !c.isEmpty)) = some cnames := by
    rw [splitOnChar_sections Domain.render
        (fun c hc => comma_not_mem_render (hcn c hc)),
      filter_sections (fun p hp => by
        obtain ⟨c, hc, rfl⟩ := List.mem_map.mp hp
        exact domainRender_ne_nil (hcn c hc)),
      parseAll_render_domains hcn]
  have hips : parseAll IpAddr.parse
      ((splitOnChar ','
        (trimEnd (ips.flatMap (fun ip => IpAddr.render ip ++ [','])))).filter
        (fun c => !c.isEmpty)) = some ips := by
    rw [trimEnd_eq_self (ws_not_mem_ip_section hip),
      splitOnChar_sections IpAddr.render
        (fun ip hip2 => comma_not_mem_ip_render (hip ip hip2)),
      filter_sections (fun p hp => by
        obtain ⟨ip, hip2, rfl⟩ := List.mem_map.mp hp
        exact ipRender_ne_nil (hip ip hip2)),
      parseAll_render_ips hip]
  simp only [DNSResultRecord.from_str, hsplit, domainParse_render hdom,
    hcnames, hips]

/-! ## Lemmas about the set operations -/

theorem mem_slInsert {α : Type} [DecidableEq α] {x y : α} {l : List α} :
    x ∈ slInsert y l ↔ x = y ∨ x ∈ l := by
  unfold slInsert
  split
  case isTrue h =>
    constructor
    · exact Or.inr
    · rintro (rfl | hx)
      · exact h
      · exact hx
  case isFalse h => simp [List.mem_cons]

theorem mem_slRemove {α : Type} [DecidableEq α] {x y : α} {l : List α} :
    x ∈ slRemove y l ↔ x ∈ l ∧ x ≠ y := by
  simp [slRemove, List.mem_filter]

/-! ## Lemmas about the cache phase -/

theorem readCacheLines_calls (lines : List (List Char)) :
    ∀ p cs, (lines.foldl readCacheLine (p, cs)).2
      = cs ++ lines.filterMap DNSResultRecord.from_str := by
  induction lines with
  | nil => intro p cs; simp
  | cons line ls ih =>
    intro p cs
    rw [List.foldl_cons, List.filterMap_cons]
    cases h : DNSResultRecord.from_str line with
    | none => simp only [readCacheLine, h]; exact ih p cs
    | some r =>
      simp only [readCacheLine, h]
      rw [ih _ (cs ++ [r])]
      simp

theorem readCacheLines_pending (lines : List (List Char)) :
    ∀ p cs d, d ∈ (lines.foldl readCacheLine (p, cs)).1
      ↔ d ∈ p ∧ ∀ r ∈ lines.filterMap DNSResultRecord.from_str, r.domain ≠ d := by
  induction lines with
  | nil => intro p cs d; simp
  | cons line ls ih =>
    intro p cs d
    rw [List.foldl_cons, List.filterMap_cons]
    cases h : DNSResultRecord.from_str line with
    | none => simp only [readCacheLine, h]; exact ih p cs d
    | some r =>
      simp only [readCacheLine, h]
      rw [ih _ (cs ++ [r]), mem_slRemove]
      constructor
      · rintro ⟨⟨hp, hne⟩, hall⟩
        refine ⟨hp, ?_⟩
        intro r2 hr2
        rcases List.mem_cons.mp hr2 with rfl | hr2
        · exact fun e => hne e.symm
        · exact hall r2 hr2
      · rintro ⟨hp, hall⟩
        refine ⟨⟨hp, fun e => hall r (List.mem_cons_self _ _) e.symm⟩, ?_⟩
        intro r2 hr2
        exact hall r2 (List.mem_cons_of_mem _ hr2)

theorem readCacheFile_calls (file : CacheFile) (p : List Domain)
    (cs : List DNSResultRecord) :
    (readCacheFile (p, cs) file).2
      = cs ++ (if file.age < MAX_AGE
          then file.lines.filterMap DNSResultRecord.from_str else []) := by
  unfold readCacheFile
  split
  · exact readCacheLines_calls file.lines p cs
  · simp

theorem readCacheFile_pending (file : CacheFile) (p : List Domain)
    (cs : List DNSResultRecord) (d : Domain) :
    d ∈ (readCacheFile (p, cs) file).1
      ↔ d ∈ p ∧ ∀ r ∈ (if file.age < MAX_AGE
          then file.lines.filterMap DNSResultRecord.from_str else []),
          r.domain ≠ d := by
  unfold readCacheFile
  split
  · exact readCacheLines_pending file.lines p cs d
  · simp

theorem readCache_foldl_calls (files : List CacheFile) :
    ∀ p cs, (files.foldl readCacheFile (p, cs)).2
      = cs ++ files.flatMap fileRecords := by
  induction files with
  | nil => intro p cs; simp
  | cons file fs ih =>
    intro p cs
    rw [List.foldl_cons, List.flatMap_cons]
    have h2 : (readCacheFile (p, cs) file).2 = cs ++ fileRecords file :=
      readCacheFile_calls file p cs
    have heq : readCacheFile (p, cs) file
        = ((readCacheFile (p, cs) file).1, cs ++ fileRecords file) := by
      rw [← h2]
    rw [heq, ih]
    simp

theorem readCache_foldl_pending (files : List CacheFile) :
    ∀ p cs d, d ∈ (files.foldl readCacheFile (p, cs)).1
      ↔ d ∈ p ∧ ∀ r ∈ files.flatMap fileRecords, r.domain ≠ d := by
  induction files with
  | nil => intro p cs d; simp
  | cons file fs ih =>
    intro p cs d
    rw [List.foldl_cons, List.flatMap_cons]
    have h2 : (readCacheFile (p, cs) file).2 = cs ++ fileRecords file :=
      readCacheFile_calls file p cs
    have heq : readCacheFile (p, cs) file
        = ((readCacheFile (p, cs) file).1, cs ++ fileRecords file) := by
      rw [← h2]
    rw [heq, ih, readCacheFile_pending]
    constructor
    · rintro ⟨⟨hp, h1⟩, h2⟩
      refine ⟨hp, ?_⟩
      intro r hr
      rcases List.mem_append.mp hr with hr | hr
      · exact h1 r (by simpa [fileRecords] using hr)
      · exact h2 r hr
    · rintro ⟨hp, hall⟩
      refine ⟨⟨hp, fun r hr => hall r (List.mem_append.mpr
        (Or.inl (by simpa [fileRecords] using hr)))⟩, ?_⟩
      exact fun r hr => hall r (List.mem_append.mpr (Or.inr hr))

/-! ## Lemmas about the resolution loop -/

theorem getD_cons_eraseIdx {α : Type} :
    ∀ (l : List α) (i : Nat), i < l.length → ∀ dflt,
    List.Perm (l.getD i dflt :: l.eraseIdx i) l := by
  intro l
  induction l with
  | nil => intro i hi; simp at hi
  | cons x xs ih =>
    intro i hi dflt
    cases i with
    | zero => simp
    | succ j =>
      have hj : j < xs.length := by simpa using hi
      have h1 := ih j hj dflt
      have h2 : ((x :: xs).getD (j + 1) dflt :: (x :: xs).eraseIdx (j + 1))
          = xs.getD j dflt :: x :: xs.eraseIdx j := by simp
      rw [h2]
      exact (List.Perm.swap x (xs.getD j dflt) (xs.eraseIdx j)).trans (h1.cons x)

theorem loopStep_nil (outcome : Domain → Option DNSResultRecord)
    (st : ResolverState) (pick : Nat) (h : st.inflight = []) :
    loopStep outcome st pick = st := by
  unfold loopStep
  rw [h]

theorem runLoop_nil (outcome : Domain → Option DNSResultRecord)
    (st : ResolverState) (picks : List Nat) (h : st.inflight = []) :
    runLoop outcome st picks = st := by
  induction picks with
  | nil => rfl
  | cons pick ps ih =>
    unfold runLoop at ih ⊢
    rw [List.foldl_cons, loopStep_nil outcome st pick h, ih]

theorem loopStep_owed (outcome : Domain → Option DNSResultRecord)
    (st : ResolverState) (pick : Nat) :
    List.Perm
      ((loopStep outcome st pick).calls
        ++ ((loopStep outcome st pick).inflight
          ++ (loopStep outcome st pick).queued).filterMap outcome)
      (st.calls ++ (st.inflight ++ st.queued).filterMap outcome) := by
  obtain ⟨queued, inflight, calls, err⟩ := st
  cases inflight with
  | nil => simp [loopStep]
  | cons d0 rest =>
    have hi : pick % (d0 :: rest).length < (d0 :: rest).length :=
      Nat.mod_lt _ (by simp)
    have hperm := getD_cons_eraseIdx (d0 :: rest) (pick % (d0 :: rest).length) hi d0
    cases houtcome : outcome ((d0 :: rest).getD (pick % (d0 :: rest).length) d0) with
    | some r =>
      cases queued with
      | nil =>
        simp only [loopStep, houtcome]
        have hargs : List.Perm ((d0 :: rest) ++ ([] : List Domain))
            ((d0 :: rest).getD (pick % (d0 :: rest).length) d0
              :: ((d0 :: rest).eraseIdx (pick % (d0 :: rest).length)
                ++ ([] : List Domain))) := by
          simpa using hperm.symm
        have hB := hargs.filterMap outcome
        simp only [List.filterMap_cons, houtcome] at hB
        have hL : (calls ++ [r])
            ++ ((d0 :: rest).eraseIdx (pick % (d0 :: rest).length)
              ++ ([] : List Domain)).filterMap outcome
            = calls ++ (r :: ((d0 :: rest).eraseIdx (pick % (d0 :: rest).length)
              ++ ([] : List Domain)).filterMap outcome) := by
          simp
        rw [hL]
        exact (List.Perm.append_left calls hB).symm
      | cons q qs =>
        simp only [loopStep, houtcome]
        have hargs : List.Perm ((d0 :: rest) ++ q :: qs)
            ((d0 :: rest).getD (pick % (d0 :: rest).length) d0
              :: (((d0 :: rest).eraseIdx (pick % (d0 :: rest).length)
                ++ [q]) ++ qs)) := by
          have h3 := hperm.symm.append_right (q :: qs)
          simpa [List.append_assoc] using h3
        have hB := hargs.filterMap outcome
        simp only [List.filterMap_cons, houtcome] at hB
        have hL : (calls ++ [r])
            ++ (((d0 :: rest).eraseIdx (pick % (d0 :: rest).length)
              ++ [q]) ++ qs).filterMap outcome
            = calls ++ (r :: (((d0 :: rest).eraseIdx (pick % (d0 :: rest).length)
              ++ [q]) ++ qs).filterMap outcome) := by
          simp
        rw [hL]
        exact (List.Perm.append_left calls hB).symm
    | none =>
      cases queued with
      | nil =>
        simp only [loopStep, houtcome]
        have hargs : List.Perm ((d0 :: rest) ++ ([] : List Domain))
            ((d0 :: rest).getD (pick % (d0 :: rest).length) d0
              :: ((d0 :: rest).eraseIdx (pick % (d0 :: rest).length)
                ++ ([] : List Domain))) := by
          simpa using hperm.symm
        have hB := hargs.filterMap outcome
        simp only [List.filterMap_cons, houtcome] at hB
        exact (List.Perm.append_left calls hB).symm
      | cons q qs =>
        simp only [loopStep, houtcome]
        have hargs : List.Perm ((d0 :: rest) ++ q :: qs)
            ((d0 :: rest).getD (pick % (d0 :: rest).length) d0
              :: (((d0 :: rest).eraseIdx (pick % (d0 :: rest).length)
                ++ [q]) ++ qs)) := by
          have h3 := hperm.symm.append_right (q :: qs)
          simpa [List.append_assoc] using h3
        have hB := hargs.filterMap outcome
        simp only [List.filterMap_cons, houtcome] at hB
        exact (List.Perm.append_left calls hB).symm

theorem loopStep_measure (outcome : Domain → Option DNSResultRecord)
    (st : ResolverState) (pick : Nat) (h : st.inflight ≠ []) :
    (loopStep outcome st pick).queued.length
      + (loopStep outcome st pick).inflight.length + 1
      = st.queued.length + st.inflight.length := by
  obtain ⟨queued, inflight, calls, err⟩ := st
  cases inflight with
  | nil => exact absurd rfl h
  | cons d0 rest =>
    have hi : pick % (d0 :: rest).length < (d0 :: rest).length :=
      Nat.mod_lt _ (by simp)
    cases houtcome : outcome ((d0 :: rest).getD (pick % (d0 :: rest).length) d0) with
    | some r =>
      cases queued with
      | nil =>
        simp only [loopStep, houtcome]
        have hi2 : pick % (rest.length + 1) < rest.length + 1 :=
          Nat.mod_lt _ (Nat.succ_pos _)
        simp [List.length_eraseIdx, hi2]
        try omega
      | cons q qs =>
        simp only [loopStep, houtcome]
        have hi2 : pick % (rest.length + 1) < rest.length + 1 :=
          Nat.mod_lt _ (Nat.succ_pos _)
        simp [List.length_eraseIdx, hi2]
        try omega
    | none =>
      cases queued with
      | nil =>
        simp only [loopStep, houtcome]
        have hi2 : pick % (rest.length + 1) < rest.length + 1 :=
          Nat.mod_lt _ (Nat.succ_pos _)
        simp [List.length_eraseIdx, hi2]
        try omega
      | cons q qs =>
        simp only [loopStep, houtcome]
        have hi2 : pick % (rest.length + 1) < rest.length + 1 :=
          Nat.mod_lt _ (Nat.succ_pos _)
        simp [List.length_eraseIdx, hi2]
        try omega

theorem loopStep_queued_nil (outcome : Domain → Option DNSResultRecord)
    (st : ResolverState) (pick : Nat) (h : st.inflight = [] → st.queued = []) :
    (loopStep outcome st pick).inflight = []
      → (loopStep outcome st pick).queued = [] := by
  obtain ⟨queued, inflight, calls, err⟩ := st
  cases inflight with
  | nil => exact fun _ => h rfl
  | cons d0 rest =>
    cases houtcome : outcome ((d0 :: rest).getD (pick % (d0 :: rest).length) d0) with
    | some r =>
      cases queued with
      | nil =>
        simp only [loopStep, houtcome]
        exact fun _ => trivial
      | cons q qs =>
        simp only [loopStep, houtcome]
        intro h2
        exact absurd h2 (by simp)
    | none =>
      cases queued with
      | nil =>
        simp only [loopStep, houtcome]
        exact fun _ => trivial
      | cons q qs =>
        simp only [loopStep, houtcome]
        intro h2
        exact absurd h2 (by simp)

theorem loopStep_window (outcome : Domain → Option DNSResultRecord)
    (st : ResolverState) (pick : Nat) :
    (loopStep outcome st pick).inflight.length ≤ st.inflight.length := by
  obtain ⟨queued, inflight, calls, err⟩ := st
  cases inflight with
  | nil => simp [loopStep]
  | cons d0 rest =>
    have hi : pick % (d0 :: rest).length < (d0 :: rest).length :=
      Nat.mod_lt _ (by simp)
    cases houtcome : outcome ((d0 :: rest).getD (pick % (d0 :: rest).length) d0) with
    | some r =>
      cases queued with
      | nil =>
        simp only [loopStep, houtcome]
        have hi2 : pick % (rest.length + 1) < rest.length + 1 :=
          Nat.mod_lt _ (Nat.succ_pos _)
        simp [List.length_eraseIdx, hi2]
      | cons q qs =>
        simp only [loopStep, houtcome]
        have hi2 : pick % (rest.length + 1) < rest.length + 1 :=
          Nat.mod_lt _ (Nat.succ_pos _)
        simp [List.length_eraseIdx, hi2]
        try omega
    | none =>
      cases queued with
      | nil =>
        simp only [loopStep, houtcome]
        have hi2 : pick % (rest.length + 1) < rest.length + 1 :=
          Nat.mod_lt _ (Nat.succ_pos _)
        simp [List.length_eraseIdx, hi2]
      | cons q qs =>
        simp only [loopStep, houtcome]
        have hi2 : pick % (rest.length + 1) < rest.length + 1 :=
          Nat.mod_lt _ (Nat.succ_pos _)
        simp [List.length_eraseIdx, hi2]
        try omega

theorem loopStep_refill (outcome : Domain → Option DNSResultRecord)
    (st : ResolverState) (pick : Nat) (h : st.inflight ≠ []) :
    (st.queued ≠ [] →
      (loopStep outcome st pick).inflight.length = st.inflight.length
      ∧ (loopStep outcome st pick).queued.length + 1 = st.queued.length)
    ∧ (st.queued = [] →
      (loopStep outcome st pick).inflight.length + 1 = st.inflight.length
      ∧ (loopStep outcome st pick).queued = []) := by
  obtain ⟨queued, inflight, calls, err⟩ := st
  cases inflight with
  | nil => exact absurd rfl h
  | cons d0 rest =>
    have hi : pick % (d0 :: rest).length < (d0 :: rest).length :=
      Nat.mod_lt _ (by simp)
    cases houtcome : outcome ((d0 :: rest).getD (pick % (d0 :: rest).length) d0) with
    | some r =>
      cases queued with
      | nil =>
        refine ⟨fun hq => absurd rfl hq, fun _ => ?_⟩
        simp only [loopStep, houtcome]
        have hi2 : pick % (rest.length + 1) < rest.length + 1 :=
          Nat.mod_lt _ (Nat.succ_pos _)
        simp [List.length_eraseIdx, hi2]
        try omega
      | cons q qs =>
        refine ⟨fun _ => ?_, fun hq => by simp at hq⟩
        simp only [loopStep, houtcome]
        have hi2 : pick % (rest.length + 1) < rest.length + 1 :=
          Nat.mod_lt _ (Nat.succ_pos _)
        simp [List.length_eraseIdx, hi2]
        try omega
    | none =>
      cases queued with
      | nil =>
        refine ⟨fun hq => absurd rfl hq, fun _ => ?_⟩
        simp only [loopStep, houtcome]
        have hi2 : pick % (rest.length + 1) < rest.length + 1 :=
          Nat.mod_lt _ (Nat.succ_pos _)
        simp [List.length_eraseIdx, hi2]
        try omega
      | cons q qs =>
        refine ⟨fun _ => ?_, fun hq => by simp at hq⟩
        simp only [loopStep, houtcome]
        have hi2 : pick % (rest.length + 1) < rest.length + 1 :=
          Nat.mod_lt _ (Nat.succ_pos _)
        simp [List.length_eraseIdx, hi2]
        try omega

theorem runLoop_owed (outcome : Domain → Option DNSResultRecord)
    (picks : List Nat) :
    ∀ st : ResolverState,
    List.Perm
      ((runLoop outcome st picks).calls
        ++ ((runLoop outcome st picks).inflight
          ++ (runLoop outcome st picks).queued).filterMap outcome)
      (st.calls ++ (st.inflight ++ st.queued).filterMap outcome) := by
  induction picks with
  | nil => intro st; exact List.Perm.refl _
  | cons pick ps ih =>
    intro st
    have h1 := ih (loopStep outcome st pick)
    have h2 := loopStep_owed outcome st pick
    exact h1.trans h2

theorem runLoop_queued_nil (outcome : Domain → Option DNSResultRecord)
    (picks : List Nat) :
    ∀ st : ResolverState, (st.inflight = [] → st.queued = []) →
    ((runLoop outcome st picks).inflight = []
      → (runLoop outcome st picks).queued = []) := by
  induction picks with
  | nil => intro st h; exact h
  | cons pick ps ih =>
    intro st h
    exact ih (loopStep outcome st pick) (loopStep_queued_nil outcome st pick h)

theorem runLoop_window (outcome : Domain → Option DNSResultRecord)
    (picks : List Nat) :
    ∀ st : ResolverState,
    (runLoop outcome st picks).inflight.length ≤ st.inflight.length := by
  induction picks with
  | nil => intro st; exact Nat.le_refl _
  | cons pick ps ih =>
    intro st
    exact Nat.le_trans (ih (loopStep outcome st pick))
      (loopStep_window outcome st pick)

theorem runLoop_drain (outcome : Domain → Option DNSResultRecord)
    (picks : List Nat) :
    ∀ st : ResolverState,
    st.queued.length + st.inflight.length ≤ picks.length →
    (runLoop outcome st picks).inflight = [] := by
  induction picks with
  | nil =>
    intro st h
    have : st.inflight = [] := by
      cases hin : st.inflight
      · rfl
      · rw [hin] at h; simp at h
    rw [runLoop_nil outcome st [] this]
    exact this
  | cons pick ps ih =>
    intro st h
    cases hin : st.inflight with
    | nil =>
      have : runLoop outcome st (pick :: ps) = st := by
        exact runLoop_nil outcome st (pick :: ps) hin
      rw [this]
      exact hin
    | cons d0 rest =>
      have hstep := loopStep_measure outcome st pick (by rw [hin]; simp)
      have hlen : st.inflight.length = rest.length + 1 := by rw [hin]; simp
      have hle : (loopStep outcome st pick).queued.length
          + (loopStep outcome st pick).inflight.length ≤ ps.length := by
        rw [hin] at h
        simp at h
        omega
      exact ih (loopStep outcome st pick) hle

theorem runLoop_calls_perm (outcome : Domain → Option DNSResultRecord)
    (picks : List Nat) (st : ResolverState)
    (hinv : st.inflight = [] → st.queued = [])
    (hfin : (runLoop outcome st picks).inflight = []) :
    List.Perm (runLoop outcome st picks).calls
      (st.calls ++ (st.inflight ++ st.queued).filterMap outcome) := by
  have hq := runLoop_queued_nil outcome picks st hinv hfin
  have h1 := runLoop_owed outcome picks st
  rw [hfin, hq] at h1
  simpa using h1

/-! ## Lemmas about the builder -/

theorem all_slInsert {α : Type} [DecidableEq α] {p : α → Bool} {x : α}
    {l : List α} (hl : l.all p = true) (hx : p x = true) :
    (slInsert x l).all p = true := by
  unfold slInsert
  split
  · exact hl
  · simp [hl, hx]

theorem mem_contains_true {α : Type} [DecidableEq α] {x : α} {l : List α}
    (h : x ∈ l) : l.contains x = true := by
  simpa using h

theorem builder_disjoint_preserved (regexOk : List Char → Bool)
    (ops : List BuilderOp) :
    ∀ b : DomainFilterBuilder,
    (∀ d, ¬ (d ∈ b.allow_domains ∧ d ∈ b.disallow_domains)) →
    ∀ d, ¬ (d ∈ (applyOps regexOk b ops).allow_domains
      ∧ d ∈ (applyOps regexOk b ops).disallow_domains) := by
  induction ops with
  | nil => intro b h; exact h
  | cons op ops ih =>
    intro b h
    refine ih (applyOp regexOk b op) ?_
    intro d hd
    cases op with
    | allowDomain d2 =>
      simp only [applyOp, DomainFilterBuilder.add_allow_domain] at hd
      obtain ⟨h1, h2⟩ := hd
      rw [mem_slInsert] at h1
      rw [mem_slRemove] at h2
      rcases h1 with rfl | h1
      · exact h2.2 rfl
      · exact h d ⟨h1, h2.1⟩
    | disallowDomain d2 =>
      simp only [applyOp, DomainFilterBuilder.add_disallow_domain] at hd
      split at hd
      case isTrue hc =>
        obtain ⟨h1, h2⟩ := hd
        rw [mem_slInsert] at h2
        rcases h2 with rfl | h2
        · have hc1 : (!b.allow_domains.contains d) = true := by
            simp only [Bool.and_eq_true] at hc
            exact hc.1
          rw [Bool.not_eq_true'] at hc1
          have h1b : d ∈ b.allow_domains := by simpa using h1
          simp at hc1
          exact hc1 h1b
        · exact h d ⟨h1, h2⟩
      case isFalse hc => exact h d hd
    | allowSubdomain d2 =>
      simp only [applyOp, DomainFilterBuilder.add_allow_subdomain] at hd
      exact h d hd
    | disallowSubdomain d2 =>
      simp only [applyOp, DomainFilterBuilder.add_disallow_subdomain] at hd
      split at hd <;> exact h d hd
    | allowIpAddr ip =>
      simp only [applyOp, DomainFilterBuilder.add_allow_ip_addr] at hd
      exact h d hd
    | disallowIpAddr ip =>
      simp only [applyOp, DomainFilterBuilder.add_disallow_ip_addr] at hd
      exact h d hd
    | allowIpSubnet net =>
      simp only [applyOp, DomainFilterBuilder.add_allow_ip_subnet] at hd
      exact h d hd
    | disallowIpSubnet net =>
      simp only [applyOp, DomainFilterBuilder.add_disallow_ip_subnet] at hd
      exact h d hd
    | adblockRule rule =>
      simp only [applyOp, DomainFilterBuilder.add_adblock_rule] at hd
      exact h d hd
    | allowRegex re =>
      simp only [applyOp, DomainFilterBuilder.add_allow_regex] at hd
      split at hd <;> exact h d hd
    | disallowRegex re =>
      simp only [applyOp, DomainFilterBuilder.add_disallow_regex] at hd
      split at hd <;> exact h d hd

theorem builder_regex_ok_preserved (regexOk : List Char → Bool)
    (ops : List BuilderOp) :
    ∀ b : DomainFilterBuilder,
    b.allow_regex.all regexOk = true ∧ b.disallow_regex.all regexOk = true →
    (applyOps regexOk b ops).allow_regex.all regexOk = true
      ∧ (applyOps regexOk b ops).disallow_regex.all regexOk = true := by
  induction ops with
  | nil => intro b h; exact h
  | cons op ops ih =>
    intro b h
    refine ih (applyOp regexOk b op) ?_
    cases op with
    | allowRegex re =>
      simp only [applyOp, DomainFilterBuilder.add_allow_regex]
      split
      case isTrue hre => exact ⟨all_slInsert h.1 hre, h.2⟩
      case isFalse hre => exact h
    | disallowRegex re =>
      simp only [applyOp, DomainFilterBuilder.add_disallow_regex]
      split
      case isTrue hre => exact ⟨h.1, all_slInsert h.2 hre⟩
      case isFalse hre => exact h
    | allowDomain d2 =>
      simp only [applyOp, DomainFilterBuilder.add_allow_domain]
      exact h
    | disallowDomain d2 =>
      simp only [applyOp, DomainFilterBuilder.add_disallow_domain]
      split <;> exact h
    | allowSubdomain d2 =>
      simp only [applyOp, DomainFilterBuilder.add_allow_subdomain]
      exact h
    | disallowSubdomain d2 =>
      simp only [applyOp, DomainFilterBuilder.add_disallow_subdomain]
      split <;> exact h
    | allowIpAddr ip =>
      simp only [applyOp, DomainFilterBuilder.add_allow_ip_addr]
      exact h
    | disallowIpAddr ip =>
      simp only [applyOp, DomainFilterBuilder.add_disallow_ip_addr]
      exact h
    | allowIpSubnet net =>
      simp only [applyOp, DomainFilterBuilder.add_allow_ip_subnet]
      exact h
    | disallowIpSubnet net =>
      simp only [applyOp, DomainFilterBuilder.add_disallow_ip_subnet]
      exact h
    | adblockRule rule =>
      simp only [applyOp, DomainFilterBuilder.add_adblock_rule]
      exact h

/-! ## The claims -/

/-- C1: the combined verdict returns the domain's own verdict whenever it
is definite, without consulting cnames or ips; when the domain verdict is
unknown it is blocked iff some cname has a blocked domain verdict or some
ip has a blocked ip verdict, unknown otherwise, and it is never allowed. -/
theorem c1_combined_verdict (f : DomainFilter) (domain : Domain)
    (cnames : List Domain) (ips : List IpAddr) :
    (∀ v, f.domain_is_allowed domain = some v
      → f.allowed domain cnames ips = some v)
    ∧ (f.domain_is_allowed domain = none →
        (f.allowed domain cnames ips = some false
          ↔ (∃ c ∈ cnames, f.domain_is_allowed c = some false)
            ∨ (∃ ip ∈ ips, f.ip_is_allowed ip = some false))
        ∧ (f.allowed domain cnames ips = none
          ↔ ¬ ((∃ c ∈ cnames, f.domain_is_allowed c = some false)
            ∨ (∃ ip ∈ ips, f.ip_is_allowed ip = some false)))
        ∧ f.allowed domain cnames ips ≠ some true) := by
  constructor
  · intro v hv
    simp [DomainFilter.allowed, hv]
  · intro hnone
    unfold DomainFilter.allowed
    rw [hnone]
    by_cases h1 : cnames.any (fun c => f.domain_is_allowed c == some false) = true
    · have hex : (∃ c ∈ cnames, f.domain_is_allowed c = some false)
          ∨ (∃ ip ∈ ips, f.ip_is_allowed ip = some false) :=
        Or.inl (by simpa [List.any_eq_true] using h1)
      simp only [h1, if_true]
      exact ⟨by simp [hex], by simp [hex], by simp⟩
    · by_cases h2 : ips.any (fun ip => f.ip_is_allowed ip == some false) = true
      · have hex : (∃ c ∈ cnames, f.domain_is_allowed c = some false)
            ∨ (∃ ip ∈ ips, f.ip_is_allowed ip = some false) :=
          Or.inr (by simpa [List.any_eq_true] using h2)
        simp only [h1, h2, if_true, if_false, Bool.false_eq_true]
        exact ⟨by simp [hex], by simp [hex], by simp⟩
      · have hnex : ¬ ((∃ c ∈ cnames, f.domain_is_allowed c = some false)
            ∨ (∃ ip ∈ ips, f.ip_is_allowed ip = some false)) := by
          rintro (hex | hex)
          · exact h1 (by simpa [List.any_eq_true] using hex)
          · exact h2 (by simpa [List.any_eq_true] using hex)
        simp only [h1, h2, if_false, Bool.false_eq_true]
        exact ⟨by simp [hnex], by simp [hnex], by simp⟩

theorem c1_combined_verdict_witness :
    DomainFilter.allowed emptyFilter [['a']] [] [] = none := by
  have h := (c1_combined_verdict emptyFilter [['a']] [] []).2 (by decide)
  exact h.2.1.mpr (by simp)

/-- C2: every allow-type condition — allow-exact membership, an allow
subdomain strict-ancestor match, or an allow pattern match — forces the
`allowed` verdict before any deny-type condition is even looked at. -/
theorem c2_allow_first (f : DomainFilter) (domain : Domain)
    (h : domain ∈ f.allow_domains
      ∨ is_subdomain_of_list domain f.allow_subdomains = true
      ∨ f.allow_regex (Domain.render domain) = true) :
    f.domain_is_allowed domain = some true := by
  unfold DomainFilter.domain_is_allowed
  have hc : (f.allow_domains.contains domain
      || is_subdomain_of_list domain f.allow_subdomains
      || f.allow_regex (Domain.render domain)) = true := by
    rcases h with h | h | h <;> simp [h]
  rw [hc]
  simp

theorem c2_allow_first_witness :
    DomainFilter.domain_is_allowed
      { emptyFilter with
        allow_domains := [[['a']]]
        disallow_domains := [[['a']]]
        adblock_matched := fun _ => true
        disallow_regex := fun _ => true }
      [['a']] = some true :=
  c2_allow_first _ _ (Or.inl (by decide))

/-- C5: after any sequence of public builder operations starting from
`new`, no domain is in both the allow-exact and the disallow-exact set;
`add_allow_domain` first removes the domain from disallow-exact and then
inserts it into allow-exact, and `add_disallow_domain` leaves the builder
unchanged (the insertion is silently dropped) whenever the domain is in
allow-exact or one of its strict ancestors is in allow-subdomains. -/
theorem c5_allow_disallow_disjoint (regexOk : List Char → Bool)
    (ops : List BuilderOp) (d : Domain) :
    (¬ (d ∈ (applyOps regexOk DomainFilterBuilder.new ops).allow_domains
      ∧ d ∈ (applyOps regexOk DomainFilterBuilder.new ops).disallow_domains))
    ∧ (∀ b : DomainFilterBuilder,
        (b.add_allow_domain d).disallow_domains = slRemove d b.disallow_domains
        ∧ (b.add_allow_domain d).allow_domains = slInsert d b.allow_domains)
    ∧ (∀ b : DomainFilterBuilder,
        (d ∈ b.allow_domains ∨ is_subdomain_of_list d b.allow_subdomains = true)
        → b.add_disallow_domain d = b) := by
  refine ⟨?_, fun b => ⟨rfl, rfl⟩, ?_⟩
  · exact builder_disjoint_preserved regexOk ops DomainFilterBuilder.new
      (by intro d2; simp [DomainFilterBuilder.new]) d
  · intro b hb
    unfold DomainFilterBuilder.add_disallow_domain
    have hc : (!b.allow_domains.contains d
        && !is_subdomain_of_list d b.allow_subdomains) = false := by
      rcases hb with hb | hb
      · have hct : b.allow_domains.contains d = true := by simpa using hb
        rw [hct]
        rfl
      · rw [hb]
        simp
    rw [hc]
    simp

theorem c5_allow_disallow_disjoint_witness :
    (DomainFilterBuilder.new.add_allow_domain [['a']]).add_disallow_domain
      [['a']] = DomainFilterBuilder.new.add_allow_domain [['a']] :=
  (c5_allow_disallow_disjoint (fun _ => false) [] [['a']]).2.2
    (DomainFilterBuilder.new.add_allow_domain [['a']]) (Or.inl (by decide))

/-- C6: IP and subnet disallow insertions are unconditional and evict
nothing, while the corresponding allow insertions first evict the same
value from the disallow side — so, unlike exact domains, a value can end
up in both the allow and the disallow set. -/
theorem c6_ip_asymmetry (b : DomainFilterBuilder) (ip : IpAddr) (net : IpNet) :
    (b.add_disallow_ip_addr ip
      = { b with disallow_ips := slInsert ip b.disallow_ips })
    ∧ (b.add_disallow_ip_subnet net
      = { b with disallow_ip_net := slInsert net b.disallow_ip_net })
    ∧ ((b.add_allow_ip_addr ip).disallow_ips = slRemove ip b.disallow_ips
      ∧ (b.add_allow_ip_addr ip).allow_ips = slInsert ip b.allow_ips)
    ∧ ((b.add_allow_ip_subnet net).disallow_ip_net
        = slRemove net b.disallow_ip_net
      ∧ (b.add_allow_ip_subnet net).allow_ip_net = slInsert net b.allow_ip_net)
    ∧ (∃ ops : List BuilderOp, ∃ ip2 : IpAddr,
        ip2 ∈ (applyOps (fun _ => false) DomainFilterBuilder.new ops).allow_ips
        ∧ ip2 ∈ (applyOps (fun _ => false)
            DomainFilterBuilder.new ops).disallow_ips) := by
  refine ⟨rfl, rfl, ⟨rfl, rfl⟩, ⟨rfl, rfl⟩, ?_⟩
  refine ⟨[BuilderOp.allowIpAddr ⟨8, 8, 8, 8⟩,
    BuilderOp.disallowIpAddr ⟨8, 8, 8, 8⟩], ⟨8, 8, 8, 8⟩, ?_, ?_⟩
  · decide
  · decide

/-- C7: subdomain matching covers strict ancestors only — with
`example.com` in disallow-subdomains and no other rules,
`www.example.com` is blocked but `example.com` itself is unknown. -/
theorem c7_subdomain_strict_ancestors :
    DomainFilter.domain_is_allowed
      { emptyFilter with
        disallow_subdomains := [["example".toList, "com".toList]] }
      ["www".toList, "example".toList, "com".toList] = some false
    ∧ DomainFilter.domain_is_allowed
      { emptyFilter with
        disallow_subdomains := [["example".toList, "com".toList]] }
      ["example".toList, "com".toList] = none := by
  exact ⟨by decide, by decide⟩

/-- C10: in every builder state reachable from `new`, every stored allow
or disallow pattern compiles, so compiling the two pattern sets in
`to_domain_filter` (the two `.unwrap()` calls) cannot fail. -/
theorem c10_regex_always_valid (ext : ExternalEngines) (ops : List BuilderOp) :
    (∀ s ∈ (applyOps ext.regexOk DomainFilterBuilder.new ops).allow_regex,
      ext.regexOk s = true)
    ∧ (∀ s ∈ (applyOps ext.regexOk DomainFilterBuilder.new ops).disallow_regex,
      ext.regexOk s = true)
    ∧ ((applyOps ext.regexOk DomainFilterBuilder.new ops).to_domain_filter
        ext).isSome = true := by
  have h := builder_regex_ok_preserved ext.regexOk ops DomainFilterBuilder.new
    ⟨rfl, rfl⟩
  refine ⟨fun s hs => List.all_eq_true.mp h.1 s hs,
    fun s hs => List.all_eq_true.mp h.2 s hs, ?_⟩
  unfold DomainFilterBuilder.to_domain_filter regexSetNew
  rw [if_pos h.1, if_pos h.2]
  rfl

theorem c10_regex_always_valid_witness :
    ((applyOps (fun _ => true) DomainFilterBuilder.new
        [BuilderOp.allowRegex ['a']]).to_domain_filter
      ⟨fun _ => true, fun _ _ => false, fun _ _ => false,
        fun _ _ => false⟩).isSome = true
    ∧ (fun _ => true : List Char → Bool) ['a'] = true := by
  constructor
  · exact (c10_regex_always_valid
      ⟨fun _ => true, fun _ _ => false, fun _ _ => false, fun _ _ => false⟩
      [BuilderOp.allowRegex ['a']]).2.2
  · exact (c10_regex_always_valid
      ⟨fun _ => true, fun _ _ => false, fun _ _ => false, fun _ _ => false⟩
      [BuilderOp.allowRegex ['a']]).1 ['a'] (by decide)

/-- C8: a cache file whose age is at least 604800 seconds (7 days)
contributes nothing — no records are yielded and the pending set is
untouched — even if its lines are well-formed; a younger file has each
line parsed, with lines that fail to parse silently skipped rather than
fatal (the successfully parsed records are all still yielded, and exactly
their domains are removed from pending). -/
theorem c8_cache_age (file : CacheFile) (p : List Domain)
    (cs : List DNSResultRecord) :
    (file.age ≥ 604800 → readCacheFile (p, cs) file = (p, cs))
    ∧ (file.age < 604800 →
        (readCacheFile (p, cs) file).2
          = cs ++ file.lines.filterMap DNSResultRecord.from_str
        ∧ ∀ d, d ∈ (readCacheFile (p, cs) file).1
            ↔ d ∈ p ∧ ∀ r ∈ file.lines.filterMap DNSResultRecord.from_str,
                r.domain ≠ d) := by
  constructor
  · intro hage
    unfold readCacheFile
    rw [if_neg (by unfold MAX_AGE; omega)]
  · intro hage
    have hfresh : file.age < MAX_AGE := by unfold MAX_AGE; omega
    constructor
    · rw [readCacheFile_calls, if_pos hfresh]
    · intro d
      rw [readCacheFile_pending, if_pos hfresh]

theorem c8_cache_age_witness :
    readCacheFile ([[['a']]], []) ⟨604800, ["a;;".toList]⟩ = ([[['a']]], [])
    ∧ (readCacheFile ([], []) ⟨0, ["nonsense".toList, "a;;".toList]⟩).2
      = [⟨[['a']], [], []⟩] := by
  constructor
  · exact (c8_cache_age ⟨604800, ["a;;".toList]⟩ [[['a']]] []).1 (by decide)
  · have h := ((c8_cache_age ⟨0, ["nonsense".toList, "a;;".toList]⟩ [] []).2
      (by decide)).1
    exact h.trans (by decide)

/-- C9: the seed phase puts at most 500 lookups in flight; afterwards each
completion admits exactly one queued lookup while any are queued (and the
pool shrinks by one once the queue is empty), so along every possible run
of the loop the number of in-flight lookups never exceeds 500. -/
theorem c9_window_bound (outcome : Domain → Option DNSResultRecord)
    (pending : List Domain) (picks : List Nat) (st : ResolverState) :
    ((initState pending).inflight.length ≤ 500)
    ∧ (st.inflight.length ≤ 500 →
        (runLoop outcome st picks).inflight.length ≤ 500)
    ∧ (∀ pick, st.inflight ≠ [] → st.queued ≠ [] →
        (loopStep outcome st pick).inflight.length = st.inflight.length
        ∧ (loopStep outcome st pick).queued.length + 1 = st.queued.length)
    ∧ (∀ pick, st.inflight ≠ [] → st.queued = [] →
        (loopStep outcome st pick).inflight.length + 1
          = st.inflight.length) := by
  refine ⟨?_, ?_, ?_, ?_⟩
  · simp [initState, WINDOW]
  · intro h
    exact Nat.le_trans (runLoop_window outcome picks st) h
  · intro pick h1 h2
    exact (loopStep_refill outcome st pick h1).1 h2
  · intro pick h1 h2
    exact ((loopStep_refill outcome st pick h1).2 h2).1

theorem c9_window_bound_witness :
    (runLoop (fun _ => none) ⟨[], [[['a']]], [], 0⟩ [0]).inflight.length ≤ 500
    ∧ (loopStep (fun _ => none) ⟨[[['b']]], [[['a']]], [], 0⟩ 0).inflight.length
      = 1 := by
  constructor
  · exact (c9_window_bound (fun _ => none) [] [0]
      ⟨[], [[['a']]], [], 0⟩).2.1 (by decide)
  · have h := ((c9_window_bound (fun _ => none) [] [0]
      ⟨[[['b']]], [[['a']]], [], 0⟩).2.2.1 0 (by decide) (by decide)).1
    exact h.trans (by decide)

/-- C3 counterexample: with an empty pending set, loading a fresh cache
file whose single line parses still invokes the callback once, so during
cache loading the callback is not restricted to records whose domain is in
the pending input set. -/
theorem c3_counterexample :
    (readCache [⟨0, ["a;;".toList]⟩] []).2 = [⟨[['a']], [], []⟩]
    ∧ (⟨[['a']], [], []⟩ : DNSResultRecord).domain ∉ ([] : List Domain) :=
  ⟨by decide, by decide⟩

/-- C3 (amended): during cache loading the callback is invoked exactly
once per successfully parsed record of each fresh file, whether or not its
domain is pending (the domain is removed from pending when present);
during the network phase it is invoked exactly once per successfully
resolved domain; hence a full run with enough picks to drain the pool
invokes the callback on the cache records followed by (in completion
order) the successful outcomes of the remaining pending domains. -/
theorem c3_callback_contract (files : List CacheFile) (domains : List Domain)
    (outcome : Domain → Option DNSResultRecord) (picks : List Nat)
    (st : ResolverState) :
    ((readCache files domains).2 = files.flatMap fileRecords)
    ∧ (∀ d, d ∈ (readCache files domains).1
        ↔ d ∈ domains ∧ ∀ r ∈ files.flatMap fileRecords, r.domain ≠ d)
    ∧ ((st.inflight = [] → st.queued = []) →
        (runLoop outcome st picks).inflight = [] →
        List.Perm (runLoop outcome st picks).calls
          (st.calls ++ (st.inflight ++ st.queued).filterMap outcome))
    ∧ ((readCache files domains).1.length ≤ picks.length →
        List.Perm (lookup_domains outcome files domains picks)
          ((readCache files domains).2
            ++ ((readCache files domains).1).filterMap outcome)) := by
  refine ⟨?_, ?_, ?_, ?_⟩
  · simpa using readCache_foldl_calls files domains []
  · intro d
    simpa using readCache_foldl_pending files domains [] d
  · exact runLoop_calls_perm outcome picks st
  · intro hlen
    unfold lookup_domains
    by_cases hp : (readCache files domains).1.isEmpty = true
    · have hnil : (readCache files domains).1 = [] := by
        simpa [List.isEmpty_iff] using hp
      rw [if_pos hp, hnil]
      simp
    · rw [if_neg hp]
      have hinv : (initState (readCache files domains).1).inflight = []
          → (initState (readCache files domains).1).queued = [] := by
        intro hin
        have h2 : List.take 500 (readCache files domains).1 = [] := by
          simpa [initState, WINDOW] using hin
        have h3 : (readCache files domains).1 = [] := by
          rcases List.take_eq_nil_iff.mp h2 with h3 | h3
          all_goals first
            | exact h3
            | exact absurd h3 (by decide)
        simp [initState, h3]
      have hsum := congrArg List.length
        (List.take_append_drop 500 (readCache files domains).1)
      rw [List.length_append] at hsum
      have hdrain : (runLoop outcome (initState (readCache files domains).1)
          picks).inflight = [] := by
        apply runLoop_drain
        simp only [initState, WINDOW]
        omega
      have hperm := runLoop_calls_perm outcome picks
        (initState (readCache files domains).1) hinv hdrain
      simp only [initState, List.nil_append, List.take_append_drop] at hperm
      have hperm2 : List.Perm
          ((runLoop outcome (initState (readCache files domains).1)
            picks).calls)
          (((readCache files domains).1).filterMap outcome) := by
        simpa [initState, List.take_append_drop] using hperm
      exact List.Perm.append_left _ hperm2

theorem c3_callback_contract_witness :
    List.Perm (lookup_domains (fun _ => none) [] [[['a']]] [0]) [] := by
  have h := (c3_callback_contract [] [[['a']]] (fun _ => none) [0]
    ⟨[], [], [], 0⟩).2.2.2 (by decide)
  have h2 : ((readCache [] [[['a']]]).2
      ++ ((readCache [] [[['a']]]).1).filterMap (fun _ => none))
      = ([] : List DNSResultRecord) := by decide
  exact h2 ▸ h

theorem c4_record_roundtrip_witness :
    DNSResultRecord.from_str (DNSResultRecord.to_string ⟨[['a']], [], []⟩)
      = some ⟨[['a']], [], []⟩
    ∧ DNSResultRecord.from_str (DNSResultRecord.to_string
        ⟨["example".toList, "com".toList],
         [["cdn".toList, "example".toList, "net".toList], [['x']]],
         [⟨8, 8, 8, 8⟩, ⟨255, 0, 10, 123⟩]⟩)
      = some ⟨["example".toList, "com".toList],
         [["cdn".toList, "example".toList, "net".toList], [['x']]],
         [⟨8, 8, 8, 8⟩, ⟨255, 0, 10, 123⟩]⟩ :=
  ⟨c4_record_roundtrip (by decide), c4_record_roundtrip (by decide)⟩

end BlockConvert
